import Mathlib

/-!
Verification development for the rating-harvest subsystem
(`src/fetch_ratings.py` of the iclr26-high-rating repository).

The Python code is shallowly embedded:

* Python values that can sit in a review record's `rating` field are
  modelled by `PyVal`.  Python's `bool` is a subclass of `int`, so
  `isinstance(value, int)` is true for booleans; `isInstInt` records that.
* A review note's `content` dict is modelled by `NoteContent`: the
  optional `"rating"` key (`none` = key absent) plus the free-text fields
  (`texts`) that the structured path never reads.
* The regular-expression patterns of `RatingExtractor.RATING_PATTERNS`
  are implemented as explicit scanners over `List Char`, with Python's
  leftmost-match `re.findall` semantics specialised to "first match's
  first capture" (the only part the source consumes).  `\s` is the ASCII
  whitespace set, `\w` is ASCII alphanumerics, `_`, and CJK ideographs
  (the character classes occurring in the source's patterns and data).
* `statistics.mean` / `round(x, 2)` are modelled exactly over `ℚ`, with
  `round` as round-half-to-even at two decimals.
* Network fetches are modelled by an oracle `Nat → HttpOutcome` giving
  the outcome of each attempt; `fetch_paper_comments` maps every error
  outcome (connection errors and non-retryable 4xx via
  `requests.exceptions.RequestException`, malformed bodies via
  `json.JSONDecodeError`, anything else) to `none`, exactly as the
  source's three `except` arms all `return None`.
* The thread pool of `process_papers_batch` is abstracted to an arrival
  order that is a permutation of the submitted ids; the success/failure
  bookkeeping is the source's per-future `if result ... else` loop.
-/

/-- A Python value that may appear in a note's `rating` field.
`pyDict v` models a dict through its `"value"` key (the only key the
source reads); `v = none` models the key being absent. -/
inductive PyVal where
  | pyInt (n : Int)
  | pyBool (b : Bool)
  | pyStr (s : List Char)
  | pyNone
  | pyDict (v : Option PyVal)

/-- Python `isinstance(value, int)`: true for `int` and, because `bool`
is a subclass of `int` in Python, for `bool` as well. -/
def isInstInt : PyVal → Bool
  | .pyInt _ => true
  | .pyBool _ => true
  | _ => false

/-- Python `value is None`. -/
def isPyNone : PyVal → Bool
  | .pyNone => true
  | _ => false

/-- The numeric value Python uses when an `int`-instance is compared or
aggregated: `True == 1`, `False == 0`.  Other constructors never pass
the `isInstInt` guard; their value here is irrelevant. -/
def numVal : PyVal → Int
  | .pyInt n => n
  | .pyBool b => if b then 1 else 0
  | _ => 0

/-- A note's `content` dict: the optional `"rating"` key and the
free-text fields (review text, summary, ...) that
`extract_ratings_from_comments` never reads. -/
structure NoteContent where
  rating : Option PyVal
  texts : List (List Char)

/-- One review note of the fetched thread. -/
structure Note where
  content : NoteContent

/-- A parsed (truthy) response body: `comments_data.get("notes", [])`.
A body whose parse fails, and Python-falsy bodies, are folded into the
fetch-failure path (`none`) below. -/
structure CommentsData where
  notes : List Note

/-- Lines 178-182 of `fetch_ratings.py`:
`rating_field = content.get("rating", {})`; if it is a dict take its
`"value"` key, else the field itself.  An absent `"rating"` key gives
`{}.get("value") = None`. -/
def getRatingValue (content : NoteContent) : Option PyVal :=
  match content.rating with
  | none => none
  | some (.pyDict v) => v
  | some v => some v

/-- The loop body of lines 173-186 for one note: the `rating_value`
passing `rating_value is not None and isinstance(rating_value, int)
and 0 <= rating_value <= 10`, if any.  The accepted value is
`rating_value` itself (which may be a Python `bool`). -/
def noteRating (note : Note) : Option PyVal :=
  match getRatingValue note.content with
  | none => none
  | some v =>
    if isPyNone v = false ∧ isInstInt v = true ∧ 0 ≤ numVal v ∧ numVal v ≤ 10 then
      some v
    else none

/-- Lines 170-188: collect, in note order, every accepted
`rating_value`. -/
def extract_ratings_from_comments (comments_data : CommentsData) : List PyVal :=
  comments_data.notes.filterMap noteRating

/-! ### The text extractor (`RatingExtractor`) -/

/-- Python's `\s` over the ASCII range. -/
def isPySpace (c : Char) : Bool :=
  c == ' ' || c == '\t' || c == '\n' || c == '\r' || c == '\x0b' || c == '\x0c'

/-- Python's `\w` restricted to the character classes in play: ASCII
alphanumerics, underscore, CJK ideographs. -/
def isWordChar (c : Char) : Bool :=
  c.isAlphanum || c == '_' || (0x4E00 ≤ c.toNat && c.toNat ≤ 0x9FFF)

/-- Value of one decimal digit. -/
def digitVal (c : Char) : Nat :=
  c.toNat - ('0').toNat

/-- The `\s*` step: drop the maximal leading run of whitespace. -/
def skipSpaces : List Char → List Char
  | [] => []
  | c :: cs => if isPySpace c then skipSpaces cs else c :: cs

/-- Greedy `(\d+)` at the current position: the maximal leading digit
run as a number, with the remainder; `none` when no digit leads. -/
def readDigitsAux (acc : Nat) : List Char → Nat × List Char
  | [] => (acc, [])
  | c :: cs => if c.isDigit then readDigitsAux (acc * 10 + digitVal c) cs else (acc, c :: cs)

/-- See `readDigitsAux`. -/
def readDigits : List Char → Option (Nat × List Char)
  | [] => none
  | c :: cs => if c.isDigit then some (readDigitsAux (digitVal c) cs) else none

/-- Case-insensitive literal match (pattern given lowercase), returning
the remainder; models `re.IGNORECASE` on the ASCII literals of the
source's patterns. -/
def matchCI : List Char → List Char → Option (List Char)
  | [], s => some s
  | _ :: _, [] => none
  | p :: ps, c :: cs => if c.toLower == p then matchCI ps cs else none

/-- A sequence of literal words separated by `\s*` (as in
`Overall\s*Rating` and `out\s*of\s*10`), matched at the current
position; returns the remainder after the last word. -/
def matchWordsAt : List (List Char) → List Char → Option (List Char)
  | [], s => some s
  | [w], s => matchCI w s
  | w :: ws, s =>
    match matchCI w s with
    | none => none
    | some s1 => matchWordsAt ws (skipSpaces s1)

/-- A label pattern `words[:：]\s*(\d+)` at the current position: the
label words, one colon from `colons`, optional whitespace, then the
captured digits. -/
def matchLabelAt (words : List (List Char)) (colons : List Char) (s : List Char) : Option Nat :=
  match matchWordsAt words s with
  | none => none
  | some [] => none
  | some (c :: s2) =>
    if colons.contains c then
      match readDigits (skipSpaces s2) with
      | some (n, _) => some n
      | none => none
    else none

/-- A pattern `(\d+)\s*words` at the current position (for
`(\d+)\s*/\s*10` and `(\d+)\s*out\s*of\s*10`): captured digits, then the
literal words. -/
def matchNumThenAt (words : List (List Char)) (s : List Char) : Option Nat :=
  match readDigits s with
  | none => none
  | some (n, s1) =>
    match matchWordsAt words (skipSpaces s1) with
    | some _ => some n
    | none => none

/-- Leftmost match: try the position matcher at each start position,
left to right; the first success is `re.findall`'s first capture. -/
def scanFirst (f : List Char → Option Nat) : List Char → Option Nat
  | [] => none
  | c :: rest =>
    match f (c :: rest) with
    | some n => some n
    | none => scanFirst f rest

/-- First capture of a label pattern over the whole text. -/
def findLabelNum (words : List (List Char)) (colons : List Char) (text : List Char) : Option Nat :=
  scanFirst (matchLabelAt words colons) text

/-- First capture of a digits-then-words pattern over the whole text. -/
def findNumThen (words : List (List Char)) (text : List Char) : Option Nat :=
  scanFirst (matchNumThenAt words) text

/-- A `\b` boundary holds after the last matched (word) character exactly when the
text ends or a non-word character follows. -/
def boundaryAfterList : List Char → Bool
  | [] => true
  | d :: _ => !(isWordChar d)

/-- The fallback `re.findall(r'\b([1-9]|10)\b', text)` (line 83): all standalone
tokens `1`..`10`, left to right, non-overlapping.  `prev` is the
character before the current position (`none` at the start of the
text); the alternation tries `[1-9]` before `10`, as Python does. -/
def findStandaloneAux (prev : Option Char) : List Char → List Nat
  | [] => []
  | [c] =>
    let bb : Bool := match prev with
      | none => true
      | some p => !(isWordChar p)
    if bb && ('1') ≤ c && c ≤ ('9') then [digitVal c] else []
  | c :: d :: rest2 =>
    let bb : Bool := match prev with
      | none => true
      | some p => !(isWordChar p)
    if bb && ('1') ≤ c && c ≤ ('9') then
      if !(isWordChar d) then
        digitVal c :: findStandaloneAux (some c) (d :: rest2)
      else if c == '1' && d == '0' && boundaryAfterList rest2 then
        10 :: findStandaloneAux (some d) rest2
      else findStandaloneAux (some c) (d :: rest2)
    else findStandaloneAux (some c) (d :: rest2)

/-- The list `RatingExtractor.RATING_PATTERNS` (lines 54-63), in source order,
each as "first capture of the pattern over the text". -/
def RATING_PATTERNS : List (List Char → Option Nat) :=
  [ findLabelNum [("rating").data] [':'],
    findLabelNum [("评分").data] [':', '：'],
    findLabelNum [("rating").data] [':', '：'],
    findNumThen [("/").data, ("10").data],
    findNumThen [("out").data, ("of").data, ("10").data],
    findLabelNum [("overall").data, ("rating").data] [':', '：'],
    findLabelNum [("overall").data] [':', '：'],
    findLabelNum [("recommendation").data] [':', '：'] ]

/-- Lines 71-80: the pattern loop.  The first pattern with a match
yields its first capture; if that value is in `[1,10]` it is returned,
otherwise the loop moves to the next pattern. -/
def tryPatternsLoop : List (List Char → Option Nat) → List Char → Option Nat
  | [], _ => none
  | p :: ps, text =>
    match p text with
    | some r => if 1 ≤ r ∧ r ≤ 10 then some r else tryPatternsLoop ps text
    | none => tryPatternsLoop ps text

/-- The function `RatingExtractor.extract_rating_from_text` (lines 65-90): empty text
gives `None`; otherwise the pattern loop; otherwise the standalone-token
fallback, accepted only when exactly one token was found. -/
def extract_rating_from_text (text : List Char) : Option Nat :=
  if text.isEmpty then none
  else
    match tryPatternsLoop RATING_PATTERNS text with
    | some r => some r
    | none =>
      match findStandaloneAux none text with
      | [n] => some n
      | _ => none

/-! ### Per-item summaries and the processor -/

/-- The dataclass `PaperRatingInfo` (lines 40-48).  `ratings` keeps the appended
Python values (which may include booleans); `avg_rating` is the exact
rational the source's float holds. -/
structure PaperRatingInfo where
  paper_id : String
  ratings : List PyVal
  min_rating : Option Int
  max_rating : Option Int
  avg_rating : Option ℚ
  reviewer_count : Nat

/-- The numeric values Python's `min`/`max`/`mean` see in a ratings
list. -/
def scoreVals (ratings : List PyVal) : List Int :=
  ratings.map numVal

/-- Python `min` over a list (`none` on the empty list, where Python
raises). -/
def pyMin : List Int → Option Int
  | [] => none
  | x :: xs => some (xs.foldl min x)

/-- Python `max` over a list. -/
def pyMax : List Int → Option Int
  | [] => none
  | x :: xs => some (xs.foldl max x)

/-- Python `statistics.mean`, exactly over `ℚ`. -/
def meanQ (l : List Int) : ℚ :=
  (l.sum : ℚ) / (l.length : ℚ)

/-- Python `round` to an integer: round half to even. -/
def roundHalfEven (q : ℚ) : ℤ :=
  let f := ⌊q⌋
  if q - f < 1/2 then f
  else if 1/2 < q - f then f + 1
  else if f % 2 = 0 then f else f + 1

/-- Python `round(x, 2)`: round half to even at two decimal places. -/
def round2 (q : ℚ) : ℚ :=
  (roundHalfEven (100 * q) : ℚ) / 100

/-- Lines 217-225: the summary for a successful fetch with no
extractable scores. -/
def emptySummary (pid : String) : PaperRatingInfo :=
  { paper_id := pid, ratings := [], min_rating := none, max_rating := none,
    avg_rating := none, reviewer_count := 0 }

/-- Lines 227-235: the summary for a non-empty ratings list:
`min(ratings)`, `max(ratings)`, `round(mean(ratings), 2)`,
`len(ratings)`. -/
def statsSummary (pid : String) (ratings : List PyVal) : PaperRatingInfo :=
  { paper_id := pid, ratings := ratings,
    min_rating := pyMin (scoreVals ratings),
    max_rating := pyMax (scoreVals ratings),
    avg_rating := some (round2 (meanQ (scoreVals ratings))),
    reviewer_count := ratings.length }

/-- The outcome of one call of `fetch_paper_comments` for one attempt:
a parsed body, a malformed body (`json.JSONDecodeError`), a
non-retryable 4xx (`requests.exceptions.HTTPError` raised by
`raise_for_status`), or a transient failure that exhausted the
connection-level retries (timeout / connection error / retries on
429 and 5xx spent). -/
inductive HttpOutcome where
  | ok (data : CommentsData)
  | badJson
  | clientError
  | transientExhausted

/-- Lines 124-158: every `except` arm returns `None`, so the caller
cannot tell a permanent error (`badJson`, `clientError`) from a
terminal transient one. -/
def fetch_paper_comments : HttpOutcome → Option CommentsData
  | .ok data => some data
  | .badJson => none
  | .clientError => none
  | .transientExhausted => none

/-- Lines 201-247, the retry loop of `process_single_paper`, from
iteration `attempt` with `remaining` iterations left
(`remaining = max_retries - attempt`).  Returns the result together
with the number of `fetch_paper_comments` calls performed — the
source performs those calls as side effects; the count instruments
the retry behaviour.  A fetch failure retries while
`attempt < max_retries - 1` (that is, while `0 < remaining - 1`);
a fetched body is final, whether or not any score is extracted. -/
def processLoop (oracle : Nat → HttpOutcome) (pid : String) :
    Nat → Nat → Option PaperRatingInfo × Nat
  | _, 0 => (none, 0)
  | attempt, remaining + 1 =>
    match fetch_paper_comments (oracle attempt) with
    | some comments_data =>
      let ratings := extract_ratings_from_comments comments_data
      if ratings.isEmpty then (some (emptySummary pid), 1)
      else (some (statsSummary pid ratings), 1)
    | none =>
      if 0 < remaining then
        let r := processLoop oracle pid (attempt + 1) remaining
        (r.1, r.2 + 1)
      else (none, 1)

/-- The function `process_single_paper(paper_id, max_retries)` (line 190), with the
network abstracted to an oracle giving each attempt's outcome. -/
def process_single_paper (oracle : Nat → HttpOutcome) (pid : String)
    (max_retries : Nat) : Option PaperRatingInfo × Nat :=
  processLoop oracle pid 0 max_retries

/-- Lines 249-284, `process_papers_batch`: one processor invocation per
id; a `some` result is appended to `results`, a `none` (and the
exception arm) appends the id to `failed_papers`.  The thread pool is
abstracted by letting the caller pass the ids in completion order
(`order`), a permutation of the submitted list. -/
def process_papers_batch (oracle : String → Nat → HttpOutcome)
    (max_retries : Nat) (order : List String) :
    List PaperRatingInfo × List String :=
  order.foldl (fun acc pid =>
    match (process_single_paper (oracle pid) pid max_retries).1 with
    | some result => (acc.1 ++ [result], acc.2)
    | none => (acc.1, acc.2 ++ [pid])) ([], [])

/-! ### General lemmas about the statistics helpers -/

theorem foldl_min_le (xs : List Int) :
    ∀ x : Int, xs.foldl min x ≤ x ∧ ∀ y ∈ xs, xs.foldl min x ≤ y := by
  induction xs with
  | nil => intro x; exact ⟨le_refl x, by simp⟩
  | cons a as ih =>
    intro x
    have h := ih (min x a)
    simp only [List.foldl_cons]
    refine ⟨le_trans h.1 (min_le_left _ _), ?_⟩
    intro y hy
    rcases List.mem_cons.mp hy with h1 | h2
    · subst h1
      exact le_trans h.1 (min_le_right _ _)
    · exact h.2 y h2

theorem foldl_min_mem (xs : List Int) :
    ∀ x : Int, xs.foldl min x = x ∨ xs.foldl min x ∈ xs := by
  induction xs with
  | nil => intro x; left; rfl
  | cons a as ih =>
    intro x
    rw [List.foldl_cons]
    rcases ih (min x a) with h | h
    · rw [h]
      rcases min_choice x a with hc | hc
      · left; exact hc
      · right; rw [hc]; exact List.mem_cons_self a as
    · right; exact List.mem_cons_of_mem a h

theorem foldl_max_ge (xs : List Int) :
    ∀ x : Int, x ≤ xs.foldl max x ∧ ∀ y ∈ xs, y ≤ xs.foldl max x := by
  induction xs with
  | nil => intro x; exact ⟨le_refl x, by simp⟩
  | cons a as ih =>
    intro x
    have h := ih (max x a)
    simp only [List.foldl_cons]
    refine ⟨le_trans (le_max_left _ _) h.1, ?_⟩
    intro y hy
    rcases List.mem_cons.mp hy with h1 | h2
    · subst h1
      exact le_trans (le_max_right _ _) h.1
    · exact h.2 y h2

theorem foldl_max_mem (xs : List Int) :
    ∀ x : Int, xs.foldl max x = x ∨ xs.foldl max x ∈ xs := by
  induction xs with
  | nil => intro x; left; rfl
  | cons a as ih =>
    intro x
    rw [List.foldl_cons]
    rcases ih (max x a) with h | h
    · rw [h]
      rcases max_choice x a with hc | hc
      · left; exact hc
      · right; rw [hc]; exact List.mem_cons_self a as
    · right; exact List.mem_cons_of_mem a h

/-- Applying `pyMin` to a non-empty list gives an element and a lower bound. -/
theorem pyMin_spec (l : List Int) (hl : l ≠ []) :
    ∃ m, pyMin l = some m ∧ m ∈ l ∧ ∀ y ∈ l, m ≤ y := by
  match l with
  | [] => exact absurd rfl hl
  | x :: xs =>
    refine ⟨xs.foldl min x, rfl, ?_, ?_⟩
    · rcases foldl_min_mem xs x with h | h
      · rw [h]; exact List.mem_cons_self x xs
      · exact List.mem_cons_of_mem x h
    · intro y hy
      rcases List.mem_cons.mp hy with h1 | h2
      · exact h1 ▸ (foldl_min_le xs x).1
      · exact (foldl_min_le xs x).2 y h2

/-- Applying `pyMax` to a non-empty list gives an element and an upper bound. -/
theorem pyMax_spec (l : List Int) (hl : l ≠ []) :
    ∃ m, pyMax l = some m ∧ m ∈ l ∧ ∀ y ∈ l, y ≤ m := by
  match l with
  | [] => exact absurd rfl hl
  | x :: xs =>
    refine ⟨xs.foldl max x, rfl, ?_, ?_⟩
    · rcases foldl_max_mem xs x with h | h
      · rw [h]; exact List.mem_cons_self x xs
      · exact List.mem_cons_of_mem x h
    · intro y hy
      rcases List.mem_cons.mp hy with h1 | h2
      · exact h1 ▸ (foldl_max_ge xs x).1
      · exact (foldl_max_ge xs x).2 y h2

theorem list_sum_ge (l : List Int) (a : Int) (h : ∀ y ∈ l, a ≤ y) :
    (l.length : Int) * a ≤ l.sum := by
  induction l with
  | nil => simp
  | cons x xs ih =>
    have hx := h x (List.mem_cons_self x xs)
    have hxs := ih (fun y hy => h y (List.mem_cons_of_mem x hy))
    simp only [List.sum_cons, List.length_cons]
    push_cast
    nlinarith

theorem list_sum_le (l : List Int) (b : Int) (h : ∀ y ∈ l, y ≤ b) :
    l.sum ≤ (l.length : Int) * b := by
  induction l with
  | nil => simp
  | cons x xs ih =>
    have hx := h x (List.mem_cons_self x xs)
    have hxs := ih (fun y hy => h y (List.mem_cons_of_mem x hy))
    simp only [List.sum_cons, List.length_cons]
    push_cast
    nlinarith

/-- The exact mean of a non-empty list lies between any lower and upper
bound of its members. -/
theorem meanQ_bounds (l : List Int) (hl : l ≠ []) (a b : Int)
    (ha : ∀ y ∈ l, a ≤ y) (hb : ∀ y ∈ l, y ≤ b) :
    (a : ℚ) ≤ meanQ l ∧ meanQ l ≤ (b : ℚ) := by
  have hlen : 0 < (l.length : ℚ) := by
    have : 0 < l.length := List.length_pos.mpr hl
    exact_mod_cast this
  have hsa : ((l.length : Int) : ℚ) * (a : ℚ) ≤ (l.sum : ℚ) := by
    exact_mod_cast list_sum_ge l a ha
  have hsb : (l.sum : ℚ) ≤ ((l.length : Int) : ℚ) * (b : ℚ) := by
    exact_mod_cast list_sum_le l b hb
  constructor
  · rw [meanQ, le_div_iff hlen]
    calc (a : ℚ) * (l.length : ℚ) = ((l.length : Int) : ℚ) * (a : ℚ) := by push_cast; ring
    _ ≤ (l.sum : ℚ) := hsa
  · rw [meanQ, div_le_iff hlen]
    calc (l.sum : ℚ) ≤ ((l.length : Int) : ℚ) * (b : ℚ) := hsb
    _ = (b : ℚ) * (l.length : ℚ) := by push_cast; ring

/-- The value of `roundHalfEven` sits between floor and ceiling. -/
theorem roundHalfEven_mem (q : ℚ) :
    ⌊q⌋ ≤ roundHalfEven q ∧ roundHalfEven q ≤ ⌈q⌉ := by
  have hfc : ⌊q⌋ ≤ ⌈q⌉ := Int.floor_le_ceil q
  have hlow : (⌊q⌋ : ℚ) ≤ q := Int.floor_le q
  unfold roundHalfEven
  by_cases h1 : q - (⌊q⌋ : ℚ) < 1/2
  · simp only [if_pos h1]
    exact ⟨le_refl _, hfc⟩
  · have hpos : (⌊q⌋ : ℚ) < q := by
      by_contra hc
      push_neg at hc
      have : q = (⌊q⌋ : ℚ) := le_antisymm hc hlow
      apply h1
      rw [this]
      norm_num
    have hc1 : ⌊q⌋ + 1 ≤ ⌈q⌉ := by
      rw [Int.add_one_le_ceil_iff]
      exact hpos
    simp only [if_neg h1]
    by_cases h2 : 1/2 < q - (⌊q⌋ : ℚ)
    · simp only [if_pos h2]
      exact ⟨by omega, hc1⟩
    · simp only [if_neg h2]
      by_cases h3 : ⌊q⌋ % 2 = 0
      · simp only [if_pos h3]
        exact ⟨le_refl _, hfc⟩
      · simp only [if_neg h3]
        exact ⟨by omega, hc1⟩

/-- Rounding by `roundHalfEven` moves its argument by at most `1/2`. -/
theorem roundHalfEven_close (q : ℚ) :
    |(roundHalfEven q : ℚ) - q| ≤ 1/2 := by
  have hlow : (⌊q⌋ : ℚ) ≤ q := Int.floor_le q
  have hhigh : q < (⌊q⌋ : ℚ) + 1 := Int.lt_floor_add_one q
  rw [abs_le]
  unfold roundHalfEven
  by_cases h1 : q - (⌊q⌋ : ℚ) < 1/2
  · simp only [if_pos h1]
    constructor <;> push_cast <;> linarith
  · push_neg at h1
    simp only [if_neg (not_lt.mpr h1)]
    by_cases h2 : 1/2 < q - (⌊q⌋ : ℚ)
    · simp only [if_pos h2]
      constructor <;> push_cast <;> linarith
    · push_neg at h2
      simp only [if_neg (not_lt.mpr h2)]
      by_cases h3 : ⌊q⌋ % 2 = 0
      · simp only [if_pos h3]
        constructor <;> push_cast <;> linarith
      · simp only [if_neg h3]
        constructor <;> push_cast <;> linarith

/-- Rounding by `round2` keeps any integer lower/upper bound. -/
theorem round2_bounds (q : ℚ) (a b : Int) (ha : (a : ℚ) ≤ q) (hb : q ≤ (b : ℚ)) :
    (a : ℚ) ≤ round2 q ∧ round2 q ≤ (b : ℚ) := by
  have h := roundHalfEven_mem (100 * q)
  have hfa : (100 * a : Int) ≤ ⌊100 * q⌋ := by
    rw [Int.le_floor]
    push_cast
    linarith
  have hcb : ⌈100 * q⌉ ≤ (100 * b : Int) := by
    rw [Int.ceil_le]
    push_cast
    linarith
  have hra : (100 * a : Int) ≤ roundHalfEven (100 * q) := le_trans hfa h.1
  have hrb : roundHalfEven (100 * q) ≤ (100 * b : Int) := le_trans h.2 hcb
  have hraq : ((100 * a : Int) : ℚ) ≤ (roundHalfEven (100 * q) : ℚ) := by exact_mod_cast hra
  have hrbq : (roundHalfEven (100 * q) : ℚ) ≤ ((100 * b : Int) : ℚ) := by exact_mod_cast hrb
  constructor
  · rw [round2, le_div_iff (by norm_num : (0:ℚ) < 100)]
    push_cast at hraq ⊢
    linarith
  · rw [round2, div_le_iff (by norm_num : (0:ℚ) < 100)]
    push_cast at hrbq ⊢
    linarith

/-- Rounding by `round2` moves its argument by at most half a hundredth, and lands
on a multiple of `1/100`. -/
theorem round2_close (q : ℚ) :
    |round2 q - q| ≤ 1/200 ∧ ∃ k : Int, round2 q = (k : ℚ)/100 := by
  refine ⟨?_, roundHalfEven (100 * q), rfl⟩
  have h := roundHalfEven_close (100 * q)
  rw [round2]
  have h100 : |((roundHalfEven (100 * q) : ℚ)/100 - q)| = |(roundHalfEven (100 * q) : ℚ) - 100 * q| / 100 := by
    rw [← abs_of_pos (show (0:ℚ) < 100 by norm_num), ← abs_div]
    congr 1
    field_simp
  rw [h100]
  rw [div_le_iff (by norm_num : (0:ℚ) < 100)]
  calc |(roundHalfEven (100 * q) : ℚ) - 100 * q| ≤ 1/2 := h
  _ = 1/200 * 100 := by norm_num

/-! ### Lemmas about the processor loop and the batch -/

/-- Any summary the processor returns carries the processed id. -/
theorem processLoop_paper_id (oracle : Nat → HttpOutcome) (pid : String) :
    ∀ (remaining attempt : Nat) (r : PaperRatingInfo),
      (processLoop oracle pid attempt remaining).1 = some r → r.paper_id = pid := by
  intro remaining
  induction remaining with
  | zero => intro attempt r h; simp [processLoop] at h
  | succ n ih =>
    intro attempt r h
    unfold processLoop at h
    cases hf : fetch_paper_comments (oracle attempt) with
    | some comments_data =>
      rw [hf] at h
      by_cases he : (extract_ratings_from_comments comments_data).isEmpty
      · simp only [if_pos he] at h
        cases h
        rfl
      · simp only [if_neg he] at h
        cases h
        rfl
    | none =>
      rw [hf] at h
      by_cases hn : 0 < n
      · simp only [if_pos hn] at h
        exact ih (attempt + 1) r h
      · simp only [if_neg hn] at h
        cases h

/-- When every attempt's fetch fails, the loop fails after performing
one fetch per remaining iteration. -/
theorem processLoop_all_fail (oracle : Nat → HttpOutcome) (pid : String)
    (hfail : ∀ i, fetch_paper_comments (oracle i) = none) :
    ∀ (remaining attempt : Nat), 0 < remaining →
      processLoop oracle pid attempt remaining = (none, remaining) := by
  intro remaining
  induction remaining with
  | zero => intro attempt h; omega
  | succ n ih =>
    intro attempt _
    unfold processLoop
    rw [hfail attempt]
    by_cases hn : 0 < n
    · simp only [if_pos hn, ih (attempt + 1) hn]
    · have hn0 : n = 0 := by omega
      subst hn0
      simp

/-- Failed attempts before the first success only shift the loop. -/
theorem processLoop_skip (oracle : Nat → HttpOutcome) (pid : String) :
    ∀ (k remaining attempt : Nat), k < remaining →
      (∀ j, j < k → fetch_paper_comments (oracle (attempt + j)) = none) →
      (processLoop oracle pid attempt remaining).1 =
        (processLoop oracle pid (attempt + k) (remaining - k)).1 := by
  intro k
  induction k with
  | zero => intro remaining attempt _ _; simp
  | succ m ih =>
    intro remaining attempt hlt hfail
    cases remaining with
    | zero => omega
    | succ n =>
      have h0 : fetch_paper_comments (oracle attempt) = none := by
        have := hfail 0 (by omega)
        simpa using this
      have hn : 0 < n := by omega
      have hstep : (processLoop oracle pid attempt (n + 1)).1 =
          (processLoop oracle pid (attempt + 1) n).1 := by
        conv_lhs => unfold processLoop
        rw [h0]
        simp only [if_pos hn]
      have hrec := ih n (attempt + 1) (by omega) (fun j hj => by
        have := hfail (j + 1) (by omega)
        have he : attempt + 1 + j = attempt + (j + 1) := by omega
        rw [he]
        exact this)
      have e1 : attempt + 1 + m = attempt + (m + 1) := by omega
      have e2 : n - m = n + 1 - (m + 1) := by omega
      rw [hstep, hrec, e1, e2]

/-- A successful fetch ends the loop with the summary computed from the
fetched body. -/
theorem processLoop_hit (oracle : Nat → HttpOutcome) (pid : String)
    (attempt remaining : Nat) (data : CommentsData) (hr : 0 < remaining)
    (hok : fetch_paper_comments (oracle attempt) = some data) :
    (processLoop oracle pid attempt remaining).1 =
      some (if (extract_ratings_from_comments data).isEmpty then emptySummary pid
            else statsSummary pid (extract_ratings_from_comments data)) := by
  cases remaining with
  | zero => omega
  | succ n =>
    unfold processLoop
    rw [hok]
    by_cases he : (extract_ratings_from_comments data).isEmpty
    · simp only [if_pos he]
    · simp only [if_neg he]

/-- The batch loop, characterised: successes are the ids whose
processing returned a summary (in order), failures the rest. -/
theorem process_papers_batch_eq (oracle : String → Nat → HttpOutcome)
    (max_retries : Nat) (order : List String) :
    process_papers_batch oracle max_retries order =
      (order.filterMap (fun pid => (process_single_paper (oracle pid) pid max_retries).1),
       order.filter (fun pid =>
         ((process_single_paper (oracle pid) pid max_retries).1).isNone)) := by
  have haux : ∀ (l : List String) (acc : List PaperRatingInfo × List String),
      l.foldl (fun acc pid =>
        match (process_single_paper (oracle pid) pid max_retries).1 with
        | some result => (acc.1 ++ [result], acc.2)
        | none => (acc.1, acc.2 ++ [pid])) acc =
      (acc.1 ++ l.filterMap (fun pid => (process_single_paper (oracle pid) pid max_retries).1),
       acc.2 ++ l.filter (fun pid =>
         ((process_single_paper (oracle pid) pid max_retries).1).isNone)) := by
    intro l
    induction l with
    | nil => intro acc; simp
    | cons pid rest ih =>
      intro acc
      simp only [List.foldl_cons]
      cases hp : (process_single_paper (oracle pid) pid max_retries).1 with
      | some r =>
        rw [ih]
        simp [List.filterMap_cons, List.filter_cons, hp]
      | none =>
        rw [ih]
        simp [List.filterMap_cons, List.filter_cons, hp]
  rw [process_papers_batch, haux order ([], [])]
  simp

theorem isEmpty_false_iff (l : List PyVal) : l.isEmpty = false ↔ l ≠ [] := by
  cases l <;> simp

/-- Unfolding `extract_ratings_from_comments` one note at a time. -/
theorem extract_cons (note : Note) (rest : List Note) :
    extract_ratings_from_comments ⟨note :: rest⟩ =
      match noteRating note with
      | some v => v :: extract_ratings_from_comments ⟨rest⟩
      | none => extract_ratings_from_comments ⟨rest⟩ := by
  show List.filterMap _ (note :: rest) = _
  rw [List.filterMap_cons]
  cases noteRating note <;> rfl

/-- Evaluating `noteRating` on a structured integer field: accepted exactly in
`[0,10]`. -/
theorem noteRating_int (n : Int) (ts : List (List Char)) :
    noteRating ⟨⟨some (PyVal.pyInt n), ts⟩⟩ =
      (if 0 ≤ n ∧ n ≤ 10 then some (PyVal.pyInt n) else none) := by
  show (if isPyNone (PyVal.pyInt n) = false ∧ isInstInt (PyVal.pyInt n) = true ∧
      0 ≤ numVal (PyVal.pyInt n) ∧ numVal (PyVal.pyInt n) ≤ 10 then
      some (PyVal.pyInt n) else none) = _
  by_cases h : 0 ≤ n ∧ n ≤ 10
  · rw [if_pos ⟨rfl, rfl, h.1, h.2⟩, if_pos h]
  · rw [if_neg (fun hc => h ⟨hc.2.2.1, hc.2.2.2⟩), if_neg h]

/-! ### Claim theorems -/

/-- C2, counterexample: a permanent error (a non-retryable 4xx raised by
`raise_for_status`) is reported by the Fetcher as the same `None` as any
other failure, and the Processor then performs three fetch attempts for
the item, not one — the claim's "no further fetch attempts" on a
permanent error is false of the code. -/
theorem permanent_error_retried_cex :
    fetch_paper_comments HttpOutcome.clientError = none ∧
    fetch_paper_comments HttpOutcome.badJson = none ∧
    (process_single_paper (fun _ => HttpOutcome.clientError) ("p1") 3).2 = 3 ∧
    ¬(process_single_paper (fun _ => HttpOutcome.clientError) ("p1") 3).2 = 1 ∧
    (process_single_paper (fun _ => HttpOutcome.clientError) ("p1") 3).1 = none := by
  exact ⟨rfl, rfl, rfl, by decide, rfl⟩

/-- C2, amended: `fetch_paper_comments` collapses permanent errors
(malformed body, non-retryable 4xx) and terminal transient errors into
the same `None`, and `process_single_paper` retries the whole fetch
cycle on every kind of fetch failure alike, returning failure only
after its full budget of `max_retries` fetch attempts. -/
theorem processor_retries_all_fetch_failures (oracle : Nat → HttpOutcome)
    (pid : String) (max_retries : Nat) (hm : 0 < max_retries)
    (hfail : ∀ i, fetch_paper_comments (oracle i) = none) :
    process_single_paper oracle pid max_retries = (none, max_retries) :=
  processLoop_all_fail oracle pid hfail max_retries 0 hm

/-- Witness for `processor_retries_all_fetch_failures`: a malformed
body on every attempt gives three fetches and a failed item. -/
theorem processor_retries_all_fetch_failures_witness :
    process_single_paper (fun _ => HttpOutcome.badJson) ("p2") 3 = (none, 3) :=
  processor_retries_all_fetch_failures (fun _ => HttpOutcome.badJson) ("p2") 3
    (by decide) (fun _ => rfl)

/-- C3, counterexample: a review note with no structured rating whose
free text matches the first label pattern with captured integer 7
contributes nothing to the item's score list, even though the text
extractor recovers 7 from that text — the free-text path is not
exercised by `extract_ratings_from_comments`. -/
theorem free_text_rating_not_collected_cex :
    extract_ratings_from_comments ⟨[⟨⟨none, [("Rating: 7").data]⟩⟩]⟩ = [] ∧
    extract_rating_from_text (("Rating: 7").data) = some 7 := by
  exact ⟨rfl, by decide⟩

/-- C3, amended: the per-item extraction reads only the structured
`rating` field — its result is independent of every free-text field,
and a note without a structured rating contributes no score no matter
what its text says (the text heuristics of `extract_rating_from_text`
are implemented but never invoked by the pipeline). -/
theorem extraction_reads_only_structured_field (r : Option PyVal)
    (ts ts2 : List (List Char)) (rest : List Note) :
    extract_ratings_from_comments ⟨(⟨⟨r, ts⟩⟩ : Note) :: rest⟩ =
      extract_ratings_from_comments ⟨(⟨⟨r, ts2⟩⟩ : Note) :: rest⟩ ∧
    extract_ratings_from_comments ⟨[(⟨⟨none, ts⟩⟩ : Note)]⟩ = [] := by
  exact ⟨rfl, rfl⟩

/-- C4: a successful fetch whose body yields no extractable score is a
success — the processor returns a summary with empty score list, all
statistics `None`, and reviewer count 0, not a failure. -/
theorem empty_scoreset_is_success (oracle : Nat → HttpOutcome) (pid : String)
    (max_retries k : Nat) (data : CommentsData)
    (hk : k < max_retries)
    (hbefore : ∀ j, j < k → fetch_paper_comments (oracle j) = none)
    (hok : oracle k = HttpOutcome.ok data)
    (hempty : (extract_ratings_from_comments data).isEmpty = true) :
    ∃ info, (process_single_paper oracle pid max_retries).1 = some info ∧
      info.ratings = [] ∧ info.min_rating = none ∧ info.max_rating = none ∧
      info.avg_rating = none ∧ info.reviewer_count = 0 := by
  refine ⟨emptySummary pid, ?_, rfl, rfl, rfl, rfl, rfl⟩
  have hskip := processLoop_skip oracle pid k max_retries 0 hk
    (fun j hj => by simpa using hbefore j hj)
  have hfetch : fetch_paper_comments (oracle (0 + k)) = some data := by
    simp [hok, fetch_paper_comments]
  have hhit := processLoop_hit oracle pid (0 + k) (max_retries - k) data
    (by omega) hfetch
  rw [process_single_paper, hskip, hhit, if_pos hempty]

/-- Witness for `empty_scoreset_is_success`: a first-attempt success
whose only note has no usable rating field. -/
theorem empty_scoreset_is_success_witness :
    ∃ info, (process_single_paper
        (fun _ => HttpOutcome.ok ⟨[⟨⟨some PyVal.pyNone, []⟩⟩]⟩) ("p3") 3).1 = some info ∧
      info.ratings = [] ∧ info.min_rating = none ∧ info.max_rating = none ∧
      info.avg_rating = none ∧ info.reviewer_count = 0 :=
  empty_scoreset_is_success (fun _ => HttpOutcome.ok ⟨[⟨⟨some PyVal.pyNone, []⟩⟩]⟩)
    ("p3") 3 0 ⟨[⟨⟨some PyVal.pyNone, []⟩⟩]⟩ (by decide)
    (fun j hj => absurd hj (by omega)) rfl rfl

/-- C10: because the structured check is `isinstance(value, int)` and
`0 <= value <= 10`, a Python boolean in the rating field is accepted —
`True` counts as the score 1, `False` as 0 — and the boolean itself is
appended to the item's score list. -/
theorem bool_rating_accepted (b : Bool) (ts : List (List Char)) (rest : List Note) :
    extract_ratings_from_comments ⟨(⟨⟨some (PyVal.pyBool b), ts⟩⟩ : Note) :: rest⟩ =
      PyVal.pyBool b :: extract_ratings_from_comments ⟨rest⟩ ∧
    isInstInt (PyVal.pyBool b) = true ∧
    numVal (PyVal.pyBool b) = (if b then 1 else 0) ∧
    numVal (PyVal.pyBool true) = 1 ∧
    numVal (PyVal.pyBool false) = 0 := by
  refine ⟨?_, rfl, rfl, rfl, rfl⟩
  cases b <;> rfl

/-- C7: a structured integer score in `[0,10]` is taken as the note's
score regardless of the note's free text — the text heuristics play no
part in the pipeline's result; in particular a note with structured
score 7 and text "Rating: 3" yields 7 (while the text extractor itself
would say 3). -/
theorem structured_field_priority (n : Int) (h0 : 0 ≤ n) (h10 : n ≤ 10)
    (ts ts2 : List (List Char)) (rest : List Note) :
    extract_ratings_from_comments ⟨(⟨⟨some (PyVal.pyInt n), ts⟩⟩ : Note) :: rest⟩ =
      PyVal.pyInt n :: extract_ratings_from_comments ⟨rest⟩ ∧
    extract_ratings_from_comments ⟨(⟨⟨some (PyVal.pyInt n), ts⟩⟩ : Note) :: rest⟩ =
      extract_ratings_from_comments ⟨(⟨⟨some (PyVal.pyInt n), ts2⟩⟩ : Note) :: rest⟩ ∧
    extract_ratings_from_comments ⟨[(⟨⟨some (PyVal.pyInt 7), [("Rating: 3").data]⟩⟩ : Note)]⟩ =
      [PyVal.pyInt 7] ∧
    extract_rating_from_text (("Rating: 3").data) = some 3 := by
  refine ⟨?_, rfl, rfl, by decide⟩
  rw [extract_cons, noteRating_int, if_pos ⟨h0, h10⟩]

/-- C8: the structured path accepts exactly the integers in `[0,10]` —
0 is accepted, 11 and -1 contribute nothing and are never clamped —
while the text path's floor is 1: "Rating: 0" yields no score and
"Rating: 11" is rejected rather than clamped. -/
theorem score_range_enforcement (ts : List (List Char)) :
    (∀ n : Int, extract_ratings_from_comments ⟨[(⟨⟨some (PyVal.pyInt n), ts⟩⟩ : Note)]⟩ =
      if 0 ≤ n ∧ n ≤ 10 then [PyVal.pyInt n] else []) ∧
    extract_ratings_from_comments ⟨[(⟨⟨some (PyVal.pyInt 0), ts⟩⟩ : Note)]⟩ = [PyVal.pyInt 0] ∧
    extract_ratings_from_comments ⟨[(⟨⟨some (PyVal.pyInt 11), ts⟩⟩ : Note)]⟩ = [] ∧
    extract_ratings_from_comments ⟨[(⟨⟨some (PyVal.pyInt (-1)), ts⟩⟩ : Note)]⟩ = [] ∧
    extract_rating_from_text (("Rating: 0").data) = none ∧
    extract_rating_from_text (("Rating: 1").data) = some 1 ∧
    extract_rating_from_text (("Rating: 10").data) = some 10 ∧
    extract_rating_from_text (("Rating: 11").data) = none := by
  have hmain : ∀ n : Int, extract_ratings_from_comments ⟨[(⟨⟨some (PyVal.pyInt n), ts⟩⟩ : Note)]⟩ =
      if 0 ≤ n ∧ n ≤ 10 then [PyVal.pyInt n] else [] := by
    intro n
    rw [extract_cons, noteRating_int]
    by_cases h : 0 ≤ n ∧ n ≤ 10
    · rw [if_pos h, if_pos h]
      rfl
    · rw [if_neg h, if_neg h]
      rfl
  refine ⟨hmain, ?_, ?_, ?_, by decide, by decide, by decide, by decide⟩
  · rw [hmain 0]; norm_num
  · rw [hmain 11]; norm_num
  · rw [hmain (-1)]; norm_num

theorem digitVal_one_to_nine (c : Char) (h1 : ('1') ≤ c) (h9 : c ≤ ('9')) :
    1 ≤ digitVal c ∧ digitVal c ≤ 10 := by
  rw [Char.le_def, UInt32.le_def] at h1 h9
  have hv1 : 49 ≤ c.toNat := h1
  have hv9 : c.toNat ≤ 57 := h9
  unfold digitVal
  have h0 : ('0').toNat = 48 := rfl
  rw [h0]
  omega

/-- Every token the fallback scanner collects lies in `[1,10]`
(auxiliary, by strong induction on the text length). -/
theorem findStandaloneAux_range_aux :
    ∀ (n : Nat) (l : List Char), l.length ≤ n → ∀ (prev : Option Char),
      ∀ u ∈ findStandaloneAux prev l, 1 ≤ u ∧ u ≤ 10 := by
  intro n
  induction n with
  | zero =>
    intro l hl prev u hu
    have hnil : l = [] := List.length_eq_zero.mp (by omega)
    subst hnil
    simp [findStandaloneAux] at hu
  | succ n ih =>
    intro l hl prev u hu
    cases l with
    | nil => simp [findStandaloneAux] at hu
    | cons c rest =>
      cases rest with
      | nil =>
        unfold findStandaloneAux at hu
        dsimp only at hu
        split at hu
        · rename_i hc
          simp only [Bool.and_eq_true, decide_eq_true_eq] at hc
          simp only [List.mem_singleton] at hu
          subst hu
          exact digitVal_one_to_nine c hc.1.2 hc.2
        · simp at hu
      | cons d rest2 =>
        have hlen1 : (d :: rest2).length ≤ n := by
          simp only [List.length_cons] at hl ⊢
          omega
        have hlen2 : rest2.length ≤ n := by
          simp only [List.length_cons] at hl
          omega
        unfold findStandaloneAux at hu
        dsimp only at hu
        split at hu
        · rename_i hc
          simp only [Bool.and_eq_true, decide_eq_true_eq] at hc
          split at hu
          · simp only [List.mem_cons] at hu
            rcases hu with h | h
            · subst h
              exact digitVal_one_to_nine c hc.1.2 hc.2
            · exact ih (d :: rest2) hlen1 (some c) u h
          · split at hu
            · simp only [List.mem_cons] at hu
              rcases hu with h | h
              · subst h
                exact ⟨by norm_num, le_refl 10⟩
              · exact ih rest2 hlen2 (some d) u h
            · exact ih (d :: rest2) hlen1 (some c) u hu
        · exact ih (d :: rest2) hlen1 (some c) u hu

/-- Every token the fallback scanner collects lies in `[1,10]`. -/
theorem findStandaloneAux_range (prev : Option Char) (l : List Char) :
    ∀ u ∈ findStandaloneAux prev l, 1 ≤ u ∧ u ≤ 10 :=
  findStandaloneAux_range_aux l.length l (le_refl _) prev

theorem tryPatternsLoop_none (text : List Char) :
    ∀ ps : List (List Char → Option Nat), (∀ p ∈ ps, p text = none) →
      tryPatternsLoop ps text = none := by
  intro ps
  induction ps with
  | nil => intro _; rfl
  | cons p ps ih =>
    intro h
    have hp := h p (List.mem_cons_self p ps)
    unfold tryPatternsLoop
    rw [hp]
    exact ih (fun q hq => h q (List.mem_cons_of_mem p hq))

/-- C9: on a text matched by no label pattern, the extractor returns a
score exactly when the fallback scan finds exactly one standalone token
(and then returns that token, necessarily in `[1,10]`); zero or several
standalone tokens give no score. -/
theorem single_token_fallback (text : List Char) (t : Nat)
    (hpat : ∀ p ∈ RATING_PATTERNS, p text = none) :
    (extract_rating_from_text text = some t ↔ findStandaloneAux none text = [t]) ∧
    ((findStandaloneAux none text).length ≠ 1 → extract_rating_from_text text = none) ∧
    (∀ u ∈ findStandaloneAux none text, 1 ≤ u ∧ u ≤ 10) := by
  have hloop := tryPatternsLoop_none text RATING_PATTERNS hpat
  cases text with
  | nil =>
    refine ⟨?_, fun _ => rfl, findStandaloneAux_range none []⟩
    simp [extract_rating_from_text, findStandaloneAux]
  | cons c cs =>
    have hext : extract_rating_from_text (c :: cs) =
        (match findStandaloneAux none (c :: cs) with
         | [n] => some n
         | _ => none) := by
      have h0 : extract_rating_from_text (c :: cs) =
          (match tryPatternsLoop RATING_PATTERNS (c :: cs) with
           | some r => some r
           | none =>
             match findStandaloneAux none (c :: cs) with
             | [n] => some n
             | _ => none) := rfl
      rw [h0, hloop]
    refine ⟨?_, ?_, findStandaloneAux_range none (c :: cs)⟩
    · rw [hext]
      cases hfs : findStandaloneAux none (c :: cs) with
      | nil => simp
      | cons n rest =>
        cases rest with
        | nil => simp
        | cons m rest2 => simp
    · intro hlen
      rw [hext]
      cases hfs : findStandaloneAux none (c :: cs) with
      | nil => rfl
      | cons n rest =>
        cases rest with
        | nil =>
          rw [hfs] at hlen
          simp at hlen
        | cons m rest2 => rfl

/-- Witness for `single_token_fallback`: the text "I give 7" matches no
label pattern and holds exactly one standalone token. -/
theorem single_token_fallback_witness :
    (extract_rating_from_text (("I give 7").data) = some 7 ↔
      findStandaloneAux none (("I give 7").data) = [7]) ∧
    ((findStandaloneAux none (("I give 7").data)).length ≠ 1 →
      extract_rating_from_text (("I give 7").data) = none) ∧
    (∀ u ∈ findStandaloneAux none (("I give 7").data), 1 ≤ u ∧ u ≤ 10) :=
  single_token_fallback (("I give 7").data) 7 (by decide)

/-- The processor's result when attempt `k` is the first to fetch a
body. -/
theorem process_single_paper_success (oracle : Nat → HttpOutcome) (pid : String)
    (max_retries k : Nat) (data : CommentsData)
    (hk : k < max_retries)
    (hbefore : ∀ j, j < k → fetch_paper_comments (oracle j) = none)
    (hok : oracle k = HttpOutcome.ok data) :
    (process_single_paper oracle pid max_retries).1 =
      some (if (extract_ratings_from_comments data).isEmpty then emptySummary pid
            else statsSummary pid (extract_ratings_from_comments data)) := by
  have hskip := processLoop_skip oracle pid k max_retries 0 hk
    (fun j hj => by simpa using hbefore j hj)
  have hfetch : fetch_paper_comments (oracle (0 + k)) = some data := by
    simp [hok, fetch_paper_comments]
  have hhit := processLoop_hit oracle pid (0 + k) (max_retries - k) data
    (by omega) hfetch
  rw [process_single_paper, hskip, hhit]

/-- C5: on a successful fetch whose body yields a non-empty score list,
the produced summary's min and max are the least and greatest collected
score values, the stored mean is the exact average rounded to two
decimals (a multiple of `1/100` within `1/200` of the exact average),
and the reviewer count is the number of collected scores. -/
theorem nonempty_scoreset_statistics (oracle : Nat → HttpOutcome) (pid : String)
    (max_retries k : Nat) (data : CommentsData)
    (hk : k < max_retries)
    (hbefore : ∀ j, j < k → fetch_paper_comments (oracle j) = none)
    (hok : oracle k = HttpOutcome.ok data)
    (hne : (extract_ratings_from_comments data).isEmpty = false) :
    ∃ info, (process_single_paper oracle pid max_retries).1 = some info ∧
      info.ratings = extract_ratings_from_comments data ∧
      (∃ m, info.min_rating = some m ∧ m ∈ scoreVals info.ratings ∧
        ∀ y ∈ scoreVals info.ratings, m ≤ y) ∧
      (∃ M, info.max_rating = some M ∧ M ∈ scoreVals info.ratings ∧
        ∀ y ∈ scoreVals info.ratings, y ≤ M) ∧
      info.avg_rating = some (round2 (meanQ (scoreVals info.ratings))) ∧
      (∃ q k2, info.avg_rating = some q ∧ q = ((k2 : Int) : ℚ)/100 ∧
        |q - meanQ (scoreVals info.ratings)| ≤ 1/200) ∧
      info.reviewer_count = info.ratings.length := by
  have hres := process_single_paper_success oracle pid max_retries k data hk hbefore hok
  rw [hne] at hres
  simp only [Bool.false_eq_true, if_false] at hres
  have hrne : extract_ratings_from_comments data ≠ [] := (isEmpty_false_iff _).mp hne
  have hvne : scoreVals (extract_ratings_from_comments data) ≠ [] := by
    intro h
    exact hrne (List.map_eq_nil.mp h)
  obtain ⟨m, hm1, hm2, hm3⟩ := pyMin_spec _ hvne
  obtain ⟨M, hM1, hM2, hM3⟩ := pyMax_spec _ hvne
  obtain ⟨habs, k2, hk2⟩ := round2_close (meanQ (scoreVals (extract_ratings_from_comments data)))
  refine ⟨statsSummary pid (extract_ratings_from_comments data), hres, rfl,
    ⟨m, hm1, hm2, hm3⟩, ⟨M, hM1, hM2, hM3⟩, rfl,
    ⟨round2 (meanQ (scoreVals (extract_ratings_from_comments data))), k2, rfl, hk2, habs⟩,
    rfl⟩

/-- Witness for `nonempty_scoreset_statistics`: a single note with
structured score 7. -/
theorem nonempty_scoreset_statistics_witness :
    ∃ info, (process_single_paper
        (fun _ => HttpOutcome.ok ⟨[⟨⟨some (PyVal.pyInt 7), []⟩⟩]⟩) ("p4") 3).1 = some info ∧
      info.ratings = extract_ratings_from_comments ⟨[⟨⟨some (PyVal.pyInt 7), []⟩⟩]⟩ ∧
      (∃ m, info.min_rating = some m ∧ m ∈ scoreVals info.ratings ∧
        ∀ y ∈ scoreVals info.ratings, m ≤ y) ∧
      (∃ M, info.max_rating = some M ∧ M ∈ scoreVals info.ratings ∧
        ∀ y ∈ scoreVals info.ratings, y ≤ M) ∧
      info.avg_rating = some (round2 (meanQ (scoreVals info.ratings))) ∧
      (∃ q k2, info.avg_rating = some q ∧ q = ((k2 : Int) : ℚ)/100 ∧
        |q - meanQ (scoreVals info.ratings)| ≤ 1/200) ∧
      info.reviewer_count = info.ratings.length :=
  nonempty_scoreset_statistics (fun _ => HttpOutcome.ok ⟨[⟨⟨some (PyVal.pyInt 7), []⟩⟩]⟩)
    ("p4") 3 0 ⟨[⟨⟨some (PyVal.pyInt 7), []⟩⟩]⟩ (by decide)
    (fun j hj => absurd hj (by omega)) rfl rfl

/-- C6: for a non-empty score list, the stored rounded mean lies
between the stored min and max inclusive, and the reviewer count is the
list's length — rounding to two decimals never leaves `[min, max]`. -/
theorem rounded_mean_between_min_max (oracle : Nat → HttpOutcome) (pid : String)
    (max_retries k : Nat) (data : CommentsData)
    (hk : k < max_retries)
    (hbefore : ∀ j, j < k → fetch_paper_comments (oracle j) = none)
    (hok : oracle k = HttpOutcome.ok data)
    (hne : (extract_ratings_from_comments data).isEmpty = false) :
    ∃ info m M q, (process_single_paper oracle pid max_retries).1 = some info ∧
      info.min_rating = some m ∧ info.max_rating = some M ∧
      info.avg_rating = some q ∧ (m : ℚ) ≤ q ∧ q ≤ (M : ℚ) ∧
      info.reviewer_count = (extract_ratings_from_comments data).length := by
  have hres := process_single_paper_success oracle pid max_retries k data hk hbefore hok
  rw [hne] at hres
  simp only [Bool.false_eq_true, if_false] at hres
  have hrne : extract_ratings_from_comments data ≠ [] := (isEmpty_false_iff _).mp hne
  have hvne : scoreVals (extract_ratings_from_comments data) ≠ [] := by
    intro h
    exact hrne (List.map_eq_nil.mp h)
  obtain ⟨m, hm1, hm2, hm3⟩ := pyMin_spec _ hvne
  obtain ⟨M, hM1, hM2, hM3⟩ := pyMax_spec _ hvne
  have hmean := meanQ_bounds (scoreVals (extract_ratings_from_comments data)) hvne m M hm3 hM3
  have hround := round2_bounds (meanQ (scoreVals (extract_ratings_from_comments data)))
    m M hmean.1 hmean.2
  refine ⟨statsSummary pid (extract_ratings_from_comments data), m, M,
    round2 (meanQ (scoreVals (extract_ratings_from_comments data))), hres,
    hm1, hM1, rfl, hround.1, hround.2, ?_⟩
  show (extract_ratings_from_comments data).length = _
  rfl

/-- Witness for `rounded_mean_between_min_max`: two notes with scores
7 and 9 (mean 8.0). -/
theorem rounded_mean_between_min_max_witness :
    ∃ info m M q, (process_single_paper
        (fun _ => HttpOutcome.ok ⟨[⟨⟨some (PyVal.pyInt 7), []⟩⟩, ⟨⟨some (PyVal.pyInt 9), []⟩⟩]⟩)
        ("p5") 3).1 = some info ∧
      info.min_rating = some m ∧ info.max_rating = some M ∧
      info.avg_rating = some q ∧ (m : ℚ) ≤ q ∧ q ≤ (M : ℚ) ∧
      info.reviewer_count = (extract_ratings_from_comments
        ⟨[⟨⟨some (PyVal.pyInt 7), []⟩⟩, ⟨⟨some (PyVal.pyInt 9), []⟩⟩]⟩).length :=
  rounded_mean_between_min_max
    (fun _ => HttpOutcome.ok ⟨[⟨⟨some (PyVal.pyInt 7), []⟩⟩, ⟨⟨some (PyVal.pyInt 9), []⟩⟩]⟩)
    ("p5") 3 0 ⟨[⟨⟨some (PyVal.pyInt 7), []⟩⟩, ⟨⟨some (PyVal.pyInt 9), []⟩⟩]⟩ (by decide)
    (fun j hj => absurd hj (by omega)) rfl rfl

theorem filterMap_isNone_length {α β : Type} (f : α → Option β) (l : List α) :
    (l.filterMap f).length + (l.filter (fun a => (f a).isNone)).length = l.length := by
  induction l with
  | nil => rfl
  | cons a as ih =>
    cases hf : f a with
    | some b =>
      simp only [List.filterMap_cons, List.filter_cons, hf, Option.isNone_some,
        Bool.false_eq_true, if_false, List.length_cons]
      omega
    | none =>
      simp only [List.filterMap_cons, List.filter_cons, hf, Option.isNone_none,
        if_true, List.length_cons]
      omega

/-- C1: over a duplicate-free id list processed in any completion
order, every input id lands in exactly one of the two output
collections — it is the `paper_id` of a success record or sits in the
failure list, never both — and the counts add up to the input size. -/
theorem batch_partition_complete (oracle : String → Nat → HttpOutcome)
    (max_retries : Nat) (paper_ids order : List String)
    (hperm : order.Perm paper_ids) (hnd : paper_ids.Nodup) :
    (process_papers_batch oracle max_retries order).1.length +
      (process_papers_batch oracle max_retries order).2.length = paper_ids.length ∧
    ∀ pid ∈ paper_ids,
      ((pid ∈ (process_papers_batch oracle max_retries order).1.map PaperRatingInfo.paper_id) ∧
        pid ∉ (process_papers_batch oracle max_retries order).2) ∨
      ((pid ∉ (process_papers_batch oracle max_retries order).1.map PaperRatingInfo.paper_id) ∧
        pid ∈ (process_papers_batch oracle max_retries order).2) := by
  have hnd2 : order.Nodup := hperm.nodup_iff.mpr hnd
  rw [process_papers_batch_eq]
  constructor
  · rw [filterMap_isNone_length]
    exact hperm.length_eq
  · intro pid hpid
    have horder : pid ∈ order := hperm.mem_iff.mpr hpid
    have hpidmap : ∀ r : PaperRatingInfo,
        (process_single_paper (oracle pid) pid max_retries).1 = some r →
          r.paper_id = pid :=
      fun r h => processLoop_paper_id (oracle pid) pid max_retries 0 r h
    cases hp : (process_single_paper (oracle pid) pid max_retries).1 with
    | some r =>
      left
      constructor
      · rw [List.mem_map]
        exact ⟨r, List.mem_filterMap.mpr ⟨pid, horder, hp⟩, hpidmap r hp⟩
      · intro hmem
        have := (List.mem_filter.mp hmem).2
        rw [hp] at this
        simp at this
    | none =>
      right
      constructor
      · intro hmem
        obtain ⟨r, hrmem, hrid⟩ := List.mem_map.mp hmem
        obtain ⟨pid2, hpid2, hp2⟩ := List.mem_filterMap.mp hrmem
        have : r.paper_id = pid2 :=
          processLoop_paper_id (oracle pid2) pid2 max_retries 0 r hp2
        rw [this] at hrid
        subst hrid
        rw [hp] at hp2
        cases hp2
      · exact List.mem_filter.mpr ⟨horder, by rw [hp]; rfl⟩

/-- Witness for `batch_partition_complete`: two ids, one succeeding and
one always failing, completing in reversed order. -/
theorem batch_partition_complete_witness :
    (process_papers_batch
        (fun pid _ => if pid = ("a") then HttpOutcome.ok ⟨[]⟩ else HttpOutcome.clientError)
        3 [("b"), ("a")]).1.length +
      (process_papers_batch
        (fun pid _ => if pid = ("a") then HttpOutcome.ok ⟨[]⟩ else HttpOutcome.clientError)
        3 [("b"), ("a")]).2.length = ([("a"), ("b")] : List String).length ∧
    ∀ pid ∈ ([("a"), ("b")] : List String),
      ((pid ∈ (process_papers_batch
          (fun pid _ => if pid = ("a") then HttpOutcome.ok ⟨[]⟩ else HttpOutcome.clientError)
          3 [("b"), ("a")]).1.map PaperRatingInfo.paper_id) ∧
        pid ∉ (process_papers_batch
          (fun pid _ => if pid = ("a") then HttpOutcome.ok ⟨[]⟩ else HttpOutcome.clientError)
          3 [("b"), ("a")]).2) ∨
      ((pid ∉ (process_papers_batch
          (fun pid _ => if pid = ("a") then HttpOutcome.ok ⟨[]⟩ else HttpOutcome.clientError)
          3 [("b"), ("a")]).1.map PaperRatingInfo.paper_id) ∧
        pid ∈ (process_papers_batch
          (fun pid _ => if pid = ("a") then HttpOutcome.ok ⟨[]⟩ else HttpOutcome.clientError)
          3 [("b"), ("a")]).2) :=
  batch_partition_complete
    (fun pid _ => if pid = ("a") then HttpOutcome.ok ⟨[]⟩ else HttpOutcome.clientError)
    3 [("a"), ("b")] [("b"), ("a")] (by decide) (by decide)

/-- Witness for `structured_field_priority`: structured score 7 next to
free text "Rating: 3". -/
theorem structured_field_priority_witness :
    extract_ratings_from_comments
        ⟨(⟨⟨some (PyVal.pyInt 7), [("Rating: 3").data]⟩⟩ : Note) :: []⟩ =
      PyVal.pyInt 7 :: extract_ratings_from_comments ⟨[]⟩ ∧
    extract_ratings_from_comments
        ⟨(⟨⟨some (PyVal.pyInt 7), [("Rating: 3").data]⟩⟩ : Note) :: []⟩ =
      extract_ratings_from_comments ⟨(⟨⟨some (PyVal.pyInt 7), []⟩⟩ : Note) :: []⟩ ∧
    extract_ratings_from_comments
        ⟨[(⟨⟨some (PyVal.pyInt 7), [("Rating: 3").data]⟩⟩ : Note)]⟩ = [PyVal.pyInt 7] ∧
    extract_rating_from_text (("Rating: 3").data) = some 3 :=
  structured_field_priority 7 (by decide) (by decide) [("Rating: 3").data] [] []
